import Mathlib

/-!
Verification of the dependency-synchronization engine of the pydep-pilot
VS Code extension, following the TypeScript sources in
`src/modules/PackageManager.ts`, `src/modules/PackageWebviewProvider.ts`
and `src/extension.ts`.

JavaScript strings are modelled as Lean `String`; the string operations
the code uses (`split`, `indexOf(..) === 0`, `parseInt` on digit runs,
`Number`) are implemented below on the underlying character lists, with
the JavaScript truthiness conventions (an absent value and the empty
string are falsy, `NaN` and `0` are falsy for `Number`) made explicit.
-/

/-- Scanner for the JavaScript `split('==')` operation: walks the character
list, cutting a token each time the two-character separator `==` occurs.
Mirrors the semantics of `pack.split('==')` in `createPackageInfo`
(PackageManager.ts line 193). -/
def splitEqEqAux : List Char → List Char → List (List Char)
  | acc, '=' :: '=' :: rest => acc.reverse :: splitEqEqAux [] rest
  | acc, c :: rest => splitEqEqAux (c :: acc) rest
  | acc, [] => [acc.reverse]

/-- JavaScript `s.split('==')`. Always returns at least one element. -/
def jsSplitEqEq (s : String) : List String :=
  (splitEqEqAux [] s.data).map String.mk

/-- Scanner for the JavaScript `split('.')` operation used by the version
comparator in `getPackageVersionList` (PackageManager.ts line 413). -/
def splitDotAux : List Char → List Char → List (List Char)
  | acc, '.' :: rest => acc.reverse :: splitDotAux [] rest
  | acc, c :: rest => splitDotAux (c :: acc) rest
  | acc, [] => [acc.reverse]

/-- JavaScript `s.split('.')`. -/
def jsSplitDot (s : String) : List String :=
  (splitDotAux [] s.data).map String.mk

/-- Decimal value of a digit character list (most significant first). -/
def digitsToNatAux (acc : Nat) : List Char → Nat
  | [] => acc
  | c :: rest => digitsToNatAux (acc * 10 + (c.toNat - '0'.toNat)) rest

/-- JavaScript `parseInt(cs) || 0` for a character list containing only
decimal digits: the empty list gives `NaN`, and `NaN || 0` is `0`, so the
empty list maps to `0`; likewise `parseInt('0') || 0` is `0`. -/
def jsParseIntDigits (cs : List Char) : Nat :=
  digitsToNatAux 0 cs

/-- JavaScript test `needle.isPrefixOf hay` used to model
`data.indexOf('WARNING') === 0` (PackageManager.ts line 146). -/
def startsWithWarning (s : String) : Bool :=
  "WARNING".data.isPrefixOf s.data

/-- The package record of the manager: `PackageInfo` in PackageManager.ts
(lines 13-17), with an optional installed version and an optional
latest-version annotation. -/
structure PackageInfo where
  name : String
  version : Option String := none
  latestVersion : Option String := none
deriving DecidableEq, Repr

/-- The installed-package record `PackageVersionInfo` (PackageManager.ts
line 19): the installed `version` is required, `latestVersion` optional. -/
structure PackageVersionInfo where
  name : String
  version : String
  latestVersion : Option String := none
deriving DecidableEq, Repr

/-- Argument of `createPackageInfo`: the source accepts
`pack: string | PackageInfo`. -/
inductive PackArg where
  | str (s : String)
  | info (p : PackageInfo)
deriving DecidableEq, Repr

/-- JavaScript `version || undefined` (PackageManager.ts line 194): the
empty string is falsy and collapses to `undefined`. -/
def jsOrUndef : Option String → Option String
  | none => none
  | some s => if s = "" then none else some s

/-- Embedding of `createPackageInfo` (PackageManager.ts lines 190-205):
a string argument is split on `==` into name and optional version; an
object argument is copied; a blank name yields `null` (here `none`). -/
def createPackageInfo (pack : PackArg) : Option PackageInfo :=
  let out : PackageInfo :=
    match pack with
    | .str s =>
      let parts := jsSplitEqEq s
      { name := parts.headD "", version := jsOrUndef parts[1]?, latestVersion := none }
    | .info p => p
  if out.name = "" then none else some out

/-- The canonical string form installed as `toString` on the parsed record
(PackageManager.ts lines 201-203): `name==version` when the version is
truthy, otherwise just `name`. -/
def PackageInfo.canonical (p : PackageInfo) : String :=
  match p.version with
  | none => p.name
  | some v => if v = "" then p.name else p.name ++ "==" ++ v

/-- An entry of the `pip list --outdated --format json` output as consumed
by `mergePackageListWithUpdate` (PackageManager.ts line 255): the field
read is `latest_version`, which may be absent. -/
structure OutdatedInfo where
  name : String
  latest_version : Option String := none
deriving DecidableEq, Repr

/-- The `latestVersionMap` built by `mergePackageListWithUpdate`
(PackageManager.ts lines 252-256): `forEach` assigns
`map[info.name] = info.latest_version`, so a later entry for the same name
overwrites an earlier one, and the stored value may itself be absent. -/
def lookupLatestVersion (updateInfo : List OutdatedInfo) (n : String) : Option String :=
  updateInfo.foldl (fun acc e => if e.name = n then e.latest_version else acc) none

/-- The per-record body of the `map` in `mergePackageListWithUpdate`
(PackageManager.ts lines 257-266): when `latestVersionMap[info.name]` is
truthy (present and not the empty string) the record is copied with
`latestVersion` set, else the record passes through unchanged. -/
def applyLatest (updateInfo : List OutdatedInfo) (info : PackageVersionInfo) : PackageVersionInfo :=
  match lookupLatestVersion updateInfo info.name with
  | none => info
  | some v => if v = "" then info else { info with latestVersion := some v }

/-- Embedding of `mergePackageListWithUpdate` (PackageManager.ts lines
251-269): with a nonempty update list every installed record is mapped
through `applyLatest`; with an empty update list the installed list is
returned as-is. -/
def mergePackageListWithUpdate (packInfo : List PackageVersionInfo)
    (updateInfo : List OutdatedInfo) : List PackageVersionInfo :=
  if 0 < updateInfo.length then packInfo.map (applyLatest updateInfo) else packInfo

/-- The per-component numeric key of the version comparator in
`getPackageVersionList` (PackageManager.ts lines 413-414):
`parseInt(p.replace(/[^0-9]/g, '')) || 0` removes every non-digit
character of the component and reads the remaining digit string as a
decimal number (the empty remainder gives 0). -/
def jsComponentKey (p : String) : Nat :=
  jsParseIntDigits (p.data.filter Char.isDigit)

/-- The component list of a version string under the code comparator:
split on `.`, then apply `jsComponentKey` to each component. -/
def jsVersionParts (v : String) : List Nat :=
  (jsSplitDot v).map jsComponentKey

/-- Tail of the comparator loop once the first component list is
exhausted: each remaining step computes `partsB[i] - 0`. -/
def cmpTailB : List Nat → Int
  | [] => 0
  | b :: bs => if (b : Int) - 0 = 0 then cmpTailB bs else (b : Int) - 0

/-- The comparator loop of `getPackageVersionList` (PackageManager.ts
lines 415-419): walk both component lists, treating a missing component
as 0; return the first nonzero `partsB[i] - partsA[i]`, else 0. -/
def cmpParts : List Nat → List Nat → Int
  | [], bs => cmpTailB bs
  | a :: as, [] => if 0 - (a : Int) = 0 then cmpParts as [] else 0 - (a : Int)
  | a :: as, b :: bs =>
    if (b : Int) - (a : Int) = 0 then cmpParts as bs else (b : Int) - (a : Int)

/-- The full comparator passed to `sort` in `getPackageVersionList`. -/
def compareVersionsJs (a b : String) : Int :=
  cmpParts (jsVersionParts a) (jsVersionParts b)

/-- The ordering induced by the comparator: `a` may be placed before `b`
exactly when the comparator is nonpositive. `Array.prototype.sort` is a
stable sort with respect to this relation. -/
def versionLE (a b : String) : Prop :=
  compareVersionsJs a b ≤ 0

instance : DecidableRel versionLE :=
  fun a b => inferInstanceAs (Decidable (compareVersionsJs a b ≤ 0))

/-- Embedding of `getPackageVersionList` (PackageManager.ts lines
385-427). The releases object is modelled as an association list from
version string to its file list (a value that is not an array is out of
scope of the claims and is not modelled). A fetch or parse failure
(`none`) returns the empty list via the surrounding catch. Keys with an
empty file list are filtered out; the rest are sorted by the comparator,
`Array.prototype.sort` being modelled as the stable insertion sort. -/
def getPackageVersionList (releases : Option (List (String × List Unit))) : List String :=
  match releases with
  | none => []
  | some rel =>
    List.insertionSort versionLE
      ((rel.filter (fun p => decide (0 < p.2.length))).map Prod.fst)

/-- Modelled from the spec: the per-component key the claim describes,
"extract the leading integer run of each component (non-numeric suffixes
ignored)". Used only to compare the claimed ordering with the one the
code computes. -/
def specComponentKey (p : String) : Nat :=
  jsParseIntDigits (p.data.takeWhile Char.isDigit)

/-- Modelled from the spec: component list under the claimed
leading-integer-run rule. -/
def specVersionParts (v : String) : List Nat :=
  (jsSplitDot v).map specComponentKey

/-- Modelled from the spec: the comparator the claim describes (same
component-wise loop, but leading-run extraction). -/
def compareVersionsSpec (a b : String) : Int :=
  cmpParts (specVersionParts a) (specVersionParts b)

/-- JavaScript `Number(text)` restricted to the shapes relevant here:
an absent text (`undefined`) is `NaN`; the empty string is `0`; a string
of decimal digits is its value; anything else is `NaN` (`none`). -/
def jsNumberNat (text : Option String) : Option Nat :=
  match text with
  | none => none
  | some s =>
    if s.data.isEmpty then some 0
    else if s.data.all Char.isDigit then some (jsParseIntDigits s.data) else none

/-- JavaScript `Number(text) || 1` (PackageManager.ts line 373): `NaN`
and `0` are falsy and default to 1. -/
def jsNumberOr1 (text : Option String) : Nat :=
  match jsNumberNat text with
  | none => 1
  | some 0 => 1
  | some k => k

/-- The `totalPages` computation of `searchFromPyPi` (PackageManager.ts
lines 367-377). The pagination block is `none` when the pagination regexp
found no block, else the list of anchor texts (`pagination.div.a`, each
`._` possibly absent). With no block, `totalPages` keeps its initial
value 1 and the clamp is never executed. With a block, the code reads
`a[a.length - 2]._`; when the anchor list has fewer than two elements that
indexing yields `undefined` and the `._` access throws, rejecting the
search (`none` result). Otherwise `Number(text) || 1` is clamped upward
to the requested page. -/
def searchTotalPages (page : Nat) (pagination : Option (List (Option String))) : Option Nat :=
  match pagination with
  | none => some 1
  | some anchors =>
    if anchors.length < 2 then none
    else
      let raw := jsNumberOr1 (anchors.getD (anchors.length - 2) none)
      some (if raw < page then page else raw)

/-- The protected bootstrap packages (PackageManager.ts lines 34-36). -/
def necessaryPackage : List String :=
  ["pip", "setuptools", "wheel"]

/-- Observable side effects of a removal request: the `pip uninstall`
child process, and the webview refresh that reloads the catalog. -/
inductive RemoveEffect where
  | uninstall (name : String)
  | refreshView
deriving DecidableEq, Repr

/-- Embedding of `PackageManager.removePackage` (PackageManager.ts lines
314-326): an unparsable spec throws `Invalid Name`; a protected name
returns immediately with no effect; otherwise `pip uninstall <name> -y`
runs. The returned effect list records every catalog-affecting action. -/
def removePackage (pack : PackArg) : Except String (List RemoveEffect) :=
  match createPackageInfo pack with
  | none => Except.error "Invalid Name"
  | some info =>
    if necessaryPackage.contains info.name then Except.ok []
    else Except.ok [RemoveEffect.uninstall info.name]

/-- Embedding of `checkRemovePackage` (extension.ts lines 96-102): a
protected name reports a warning and returns false. -/
def checkRemovePackage (name : String) : Bool :=
  !(necessaryPackage.contains name)

/-- Embedding of the `pydep-pilot.removePackage` command handler
(extension.ts lines 127-146): a blank value or a protected first
`==`-component returns `false` (the "did not remove" outcome) before any
uninstall is attempted; otherwise the removal runs and is followed by a
webview refresh, and the handler returns `true`. -/
def removePackageCommand (value : String) : Except String (Bool × List RemoveEffect) :=
  if value = "" then Except.ok (false, [])
  else if checkRemovePackage ((jsSplitEqEq value).headD "") = false then Except.ok (false, [])
  else
    match removePackage (.str value) with
    | Except.ok effs => Except.ok (true, effs ++ [RemoveEffect.refreshView])
    | Except.error e => Except.error e

/-- One event delivered to the handlers that `execute` registers on the
spawned child process (PackageManager.ts lines 112-162): a stdout chunk,
a stderr chunk, the cancellation callback firing, the `close` event with
its exit code (`none` models the null code Node reports when the process
was terminated by a signal, as after `p.kill()`), and the `error` event
of a failed spawn. -/
inductive ExecEvent where
  | stdout (data : String)
  | stderr (data : String)
  | cancelRequested
  | close (code : Option Nat)
  | procError (message : String)
deriving DecidableEq, Repr

/-- How the promise returned by `execute` settles. There is no
cancellation-specific variant: the code only ever resolves with the
accumulated stdout or rejects with a generic error. -/
inductive ExecOutcome where
  | resolved (out : String)
  | rejected (code : Option Nat) (message : String)
  | rejectedSpawn (message : String)
deriving DecidableEq, Repr

/-- The mutable state of one `execute` call: the accumulated stdout
(`out`), the accumulated stderr (`errMsg`), whether `p.kill()` has been
invoked, and how the promise settled, if it has. -/
structure ExecState where
  out : String := ""
  errMsg : String := ""
  killed : Bool := false
  settled : Option ExecOutcome := none
deriving DecidableEq, Repr

/-- State transition of `execute` for one event (PackageManager.ts lines
128-161). A stdout chunk is appended to `out`. A stderr chunk starting
with `WARNING` is skipped entirely (line 146); any other chunk is
appended to `errMsg`. The cancellation callback calls `p.kill()`.
The `close` handler resolves with `out` when the code is falsy (0 or the
null code of a signal-terminated process) and otherwise rejects with
`errMsg || 'Command failed'`; a promise that has already settled stays
settled. -/
def execStep (s : ExecState) (e : ExecEvent) : ExecState :=
  match e with
  | .stdout d => { s with out := s.out ++ d }
  | .stderr d => if startsWithWarning d then s else { s with errMsg := s.errMsg ++ d }
  | .cancelRequested => { s with killed := true }
  | .close code =>
    match s.settled with
    | some _ => s
    | none =>
      let outcome :=
        if code = none ∨ code = some 0 then ExecOutcome.resolved s.out
        else ExecOutcome.rejected code (if s.errMsg = "" then "Command failed" else s.errMsg)
      { s with settled := some outcome }
  | .procError m =>
    match s.settled with
    | some _ => s
    | none =>
      let msg := "Failed to execute python: " ++ m ++ ". Make sure Python is installed and selected."
      { s with settled := some (ExecOutcome.rejectedSpawn msg) }

/-- The diagnostic-channel lines `execute` emits for one event: stdout
chunks are mirrored (line 141); stderr chunks are mirrored only when they
do not start with `WARNING`, because the `appendLine` sits inside the
same guard that skips the error accumulation (lines 146-148); the
cancellation callback logs `cancel command` (line 135); the close handler
logs an empty line (line 153); a spawn error is logged (line 129). -/
def execDiagLines (e : ExecEvent) : List String :=
  match e with
  | .stdout d => [d]
  | .stderr d => if startsWithWarning d then [] else [d]
  | .cancelRequested => ["cancel command"]
  | .close _ => [""]
  | .procError m => ["Process error: " ++ m]

/-- Run one `execute` call over an event sequence, starting from the
fresh state (empty accumulators, not killed, pending). -/
def execRun (events : List ExecEvent) : ExecState :=
  events.foldl execStep {}

/-- The diagnostic lines emitted by the event handlers over a whole event
sequence (the initial `exec command args` banner of line 117 is constant
and omitted). -/
def execDiag (events : List ExecEvent) : List String :=
  events.flatMap execDiagLines

/-- Selector for the stderr chunks that take part in the error
accumulation: the data of a stderr event that does not start with
`WARNING`. -/
def nonWarningStderr : ExecEvent → Option String
  | ExecEvent.stderr d => if startsWithWarning d then none else some d
  | _ => none

/-- Concatenation of a list of strings, in order. -/
def concatStrings : List String → String
  | [] => ""
  | s :: rest => s ++ concatStrings rest

/-- Recognizer for the cancellation event, used to compare a run with
the same run stripped of its cancellation events. -/
def isCancelEvent : ExecEvent → Bool
  | ExecEvent.cancelRequested => true
  | _ => false

/-- The decoded `https://pypi.org/pypi/<name>/json` document as read by
`checkPackageLatestVersion`: only `info.version` is consumed, and it may
be absent. -/
structure PyPiInfo where
  version : Option String := none
deriving DecidableEq, Repr

/-- Embedding of `checkPackageLatestVersion` (PackageManager.ts lines
236-249). The network is an oracle from package name to an optional
response; `none` covers every failure (network, timeout, cancellation
via a pre-signalled token), which the catch turns into `null`. On
success the code returns `resp.data?.info?.version || null`, so an
absent or empty version also yields `none`. -/
def checkPackageLatestVersion (net : String → Option PyPiInfo) (packageName : String)
    (cancelToken : Option Bool) : Option String :=
  if cancelToken = some true then none
  else
    match net packageName with
    | none => none
    | some d =>
      match d.version with
      | none => none
      | some v => if v = "" then none else some v

/-- One outbound webview message (PackageWebviewProvider.ts `_postMessage`
call sites in `_loadPackages`): the claims concern `loading`, `packages`,
`checkingUpdates` and `error`. -/
inductive ViewMessage where
  | loading (value : Bool)
  | packages (data : List PackageVersionInfo) (hasRequirements : Bool)
  | checkingUpdates (value : Bool)
  | error (message : String)
deriving DecidableEq, Repr

/-- The per-package body of the batch map in `_loadPackages`
(PackageWebviewProvider.ts lines 561-566): the lookup is issued with the
one-argument call `checkPackageLatestVersion(pkg.name)` — no cancellation
token — and a truthy result is written into the record, a null result
leaves it unchanged. -/
def enrichPkg (net : String → Option PyPiInfo) (pkg : PackageVersionInfo) : PackageVersionInfo :=
  match checkPackageLatestVersion net pkg.name none with
  | none => pkg
  | some v => { pkg with latestVersion := some v }

/-- One settled batch: every member looked up independently. -/
def enrichBatch (net : String → Option PyPiInfo) (batch : List PackageVersionInfo) :
    List PackageVersionInfo :=
  batch.map (enrichPkg net)

/-- The batch loop of `_loadPackages` (PackageWebviewProvider.ts lines
557-576): slices of 5 are processed in order; after each batch settles,
the already-enriched prefix together with the untouched suffix is
published as one incremental `packages` message. `fuel` bounds the
recursion and any value at least the length of `todo` is exact. -/
def enrichRoundsAux (net : String → Option PyPiInfo) (hasReq : Bool) :
    Nat → List PackageVersionInfo → List PackageVersionInfo →
    List PackageVersionInfo × List ViewMessage
  | 0, done, todo => (done ++ todo, [])
  | _ + 1, done, [] => (done, [])
  | fuel + 1, done, t :: ts =>
    let todo := t :: ts
    let newDone := done ++ enrichBatch net (todo.take 5)
    let rest := todo.drop 5
    let result := enrichRoundsAux net hasReq fuel newDone rest
    (result.1, ViewMessage.packages (newDone ++ rest) hasReq :: result.2)

/-- The messages published during the enrichment phase of one refresh. -/
def enrichMsgs (net : String → Option PyPiInfo) (hasReq : Bool)
    (pkgs : List PackageVersionInfo) : List ViewMessage :=
  (enrichRoundsAux net hasReq pkgs.length [] pkgs).2

/-- The error-message classification of the catch block of
`_loadPackages` (PackageWebviewProvider.ts lines 579-587). -/
def lowerChars (s : String) : List Char :=
  s.data.map Char.toLower

/-- Substring test on character lists, modelling
`lowerError.includes(..)`. -/
def containsChars (needle : List Char) : List Char → Bool
  | [] => needle.isEmpty
  | c :: rest => needle.isPrefixOf (c :: rest) || containsChars needle rest

/-- The user-facing error text published when the listing phase fails. -/
def classifyLoadError (errorMessage : String) : String :=
  if containsChars "python".data (lowerChars errorMessage)
      || containsChars "pip".data (lowerChars errorMessage)
      || containsChars "interpreter".data (lowerChars errorMessage) then
    "No Python interpreter selected. Please select a Python interpreter using the Python extension."
  else "Failed to load packages: " ++ errorMessage

/-- Embedding of `_loadPackages` (PackageWebviewProvider.ts lines
513-591) as the ordered message sequence of one refresh cycle. The
listing phase either fails (error snapshot, loading cleared, no
enrichment) or succeeds, in which case the package list is published
immediately, loading is cleared, and the batched enrichment runs,
bracketed by the `checkingUpdates` pair. `wsHasReq` tells whether the
workspace holds a requirements.txt; the flag is only consulted when the
listing came back empty. -/
def loadPackages (net : String → Option PyPiInfo) (listing : Except String (List PackageVersionInfo))
    (wsHasReq : Bool) : List ViewMessage :=
  match listing with
  | Except.error e =>
    [ViewMessage.loading true, ViewMessage.error (classifyLoadError e), ViewMessage.loading false]
  | Except.ok pkgs =>
    let hasRequirements := pkgs.isEmpty && wsHasReq
    [ViewMessage.loading true,
     ViewMessage.packages pkgs hasRequirements,
     ViewMessage.loading false,
     ViewMessage.checkingUpdates true]
    ++ enrichMsgs net hasRequirements pkgs
    ++ [ViewMessage.checkingUpdates false]

/-- One in-flight `_loadPackages` cycle: its cycle id and the messages it
has not yet emitted. -/
structure RefreshTask where
  id : Nat
  pending : List ViewMessage
deriving DecidableEq, Repr

/-- The provider state relevant to refresh supersession: the set of
in-flight cycles, a fresh-id counter, and the log of messages actually
posted to the webview, tagged with the emitting cycle. -/
structure WebviewState where
  tasks : List RefreshTask := []
  nextId : Nat := 0
  log : List (Nat × ViewMessage) := []
deriving DecidableEq, Repr

/-- Embedding of `refresh()` (PackageWebviewProvider.ts lines 509-511):
the body is exactly `this._loadPackages()` — a new cycle is started
unconditionally. No cancellation token is created or cancelled, and no
existing cycle is touched: the previous tasks list is kept as-is and the
new cycle is appended. -/
def refreshHandler (net : String → Option PyPiInfo)
    (listing : Except String (List PackageVersionInfo)) (wsHasReq : Bool)
    (s : WebviewState) : WebviewState :=
  { s with
    tasks := s.tasks ++ [{ id := s.nextId, pending := loadPackages net listing wsHasReq }],
    nextId := s.nextId + 1 }

/-- Scheduler step: the event loop lets cycle `i` run to its next
message, which is appended to the log. Cycles interleave freely because
nothing in the code serializes or cancels them. -/
def stepTask (i : Nat) (s : WebviewState) : WebviewState :=
  match s.tasks[i]? with
  | none => s
  | some t =>
    match t.pending with
    | [] => s
    | m :: rest =>
      { s with
        tasks := s.tasks.set i { id := t.id, pending := rest },
        log := s.log ++ [(t.id, m)] }

/-- Iterated scheduler steps, first index first. -/
def stepTasks (steps : List Nat) (s : WebviewState) : WebviewState :=
  steps.foldl (fun st i => stepTask i st) s

/-- A cycle is in flight while it still has messages to emit. -/
def activeRefreshCount (s : WebviewState) : Nat :=
  (s.tasks.filter (fun t => !t.pending.isEmpty)).length

/-- Concrete installed record used in the batched-enrichment instances. -/
def pkgN (n : String) : PackageVersionInfo :=
  { name := n, version := "1.0" }

/-- The same record after a successful lookup against `netTwo`. -/
def pkgNv (n : String) : PackageVersionInfo :=
  { name := n, version := "1.0", latestVersion := some "2.0" }

/-- A registry oracle that answers every lookup with version 2.0. -/
def netTwo : String → Option PyPiInfo :=
  fun _ => some { version := some "2.0" }

/-- A registry oracle that fails the lookup of `p02` and answers every
other lookup with version 2.0. -/
def netTwoFail : String → Option PyPiInfo :=
  fun n => if n = "p02" then none else some { version := some "2.0" }

/-! Helper lemmas about the catalog merge. -/

theorem lookupLatestVersion_foldl_skip (u : List OutdatedInfo) (n : String)
    (acc : Option String) (h : ∀ e ∈ u, e.name ≠ n) :
    u.foldl (fun acc e => if e.name = n then e.latest_version else acc) acc = acc := by
  induction u generalizing acc with
  | nil => rfl
  | cons e u ih =>
    have he : e.name ≠ n := h e (List.mem_cons_self e u)
    simp only [List.foldl_cons, if_neg he]
    exact ih acc (fun x hx => h x (List.mem_cons_of_mem e hx))

theorem lookupLatestVersion_eq_none (u : List OutdatedInfo) (n : String)
    (h : ∀ e ∈ u, e.name ≠ n) : lookupLatestVersion u n = none :=
  lookupLatestVersion_foldl_skip u n none h

theorem lookupLatestVersion_foldl_falsy (u : List OutdatedInfo) (n : String)
    (acc : Option String) (hacc : acc = none ∨ acc = some "")
    (hall : ∀ e ∈ u, e.name = n → e.latest_version = none ∨ e.latest_version = some "") :
    u.foldl (fun acc e => if e.name = n then e.latest_version else acc) acc = none
      ∨ u.foldl (fun acc e => if e.name = n then e.latest_version else acc) acc = some "" := by
  induction u generalizing acc with
  | nil => exact hacc
  | cons e u ih =>
    simp only [List.foldl_cons]
    by_cases he : e.name = n
    · rw [if_pos he]
      exact ih e.latest_version (hall e (List.mem_cons_self e u) he)
        (fun x hx => hall x (List.mem_cons_of_mem e hx))
    · rw [if_neg he]
      exact ih acc hacc (fun x hx => hall x (List.mem_cons_of_mem e hx))

theorem lookupLatestVersion_falsy (u : List OutdatedInfo) (n : String)
    (h : ∀ e ∈ u, e.name = n → e.latest_version = none ∨ e.latest_version = some "") :
    lookupLatestVersion u n = none ∨ lookupLatestVersion u n = some "" :=
  lookupLatestVersion_foldl_falsy u n none (Or.inl rfl) h

theorem applyLatest_name (u : List OutdatedInfo) (info : PackageVersionInfo) :
    (applyLatest u info).name = info.name := by
  unfold applyLatest
  rcases lookupLatestVersion u info.name with _ | v
  · rfl
  · by_cases hv : v = "" <;> simp [hv]

theorem applyLatest_version (u : List OutdatedInfo) (info : PackageVersionInfo) :
    (applyLatest u info).version = info.version := by
  unfold applyLatest
  rcases lookupLatestVersion u info.name with _ | v
  · rfl
  · by_cases hv : v = "" <;> simp [hv]

theorem applyLatest_idem (u : List OutdatedInfo) (info : PackageVersionInfo) :
    applyLatest u (applyLatest u info) = applyLatest u info := by
  rcases h : lookupLatestVersion u info.name with _ | v
  · unfold applyLatest
    simp [h]
  · by_cases hv : v = ""
    · unfold applyLatest
      simp [h, hv]
    · have h1 : applyLatest u info = { info with latestVersion := some v } := by
        unfold applyLatest
        simp [h, hv]
      rw [h1]
      unfold applyLatest
      have hname : ({ info with latestVersion := some v } : PackageVersionInfo).name = info.name := rfl
      rw [hname, h]
      simp [hv]

theorem applyLatest_unchanged (u : List OutdatedInfo) (info : PackageVersionInfo)
    (h : lookupLatestVersion u info.name = none ∨ lookupLatestVersion u info.name = some "") :
    applyLatest u info = info := by
  unfold applyLatest
  rcases h with h | h <;> simp [h]

/-- Claim C3: `mergePackageListWithUpdate` is the identity on the
installed list when the updates sequence is empty (a defined no-op, not
an error), it is idempotent (merging the same updates twice equals
merging them once), and installed entries whose name is absent from the
updates sequence pass through unchanged at their position. -/
theorem claim_C3 :
    (∀ packInfo, mergePackageListWithUpdate packInfo [] = packInfo)
    ∧ (∀ packInfo updateInfo,
        mergePackageListWithUpdate (mergePackageListWithUpdate packInfo updateInfo) updateInfo
          = mergePackageListWithUpdate packInfo updateInfo)
    ∧ (∀ packInfo updateInfo (i : Nat) (r : PackageVersionInfo), packInfo[i]? = some r →
        (∀ e ∈ updateInfo, e.name ≠ r.name) →
        (mergePackageListWithUpdate packInfo updateInfo)[i]? = some r) := by
  refine ⟨?_, ?_, ?_⟩
  · intro p
    simp [mergePackageListWithUpdate]
  · intro p u
    rcases u with _ | ⟨e, u⟩
    · simp [mergePackageListWithUpdate]
    · simp only [mergePackageListWithUpdate, List.length_cons, Nat.zero_lt_succ, if_pos,
        List.map_map]
      induction p with
      | nil => rfl
      | cons x p ih => simp only [List.map_cons, Function.comp_apply, applyLatest_idem, ih]
  · intro p u i r hi habsent
    rcases u with _ | ⟨e, u⟩
    · simpa [mergePackageListWithUpdate] using hi
    · simp only [mergePackageListWithUpdate, List.length_cons, Nat.zero_lt_succ, if_pos,
        List.getElem?_map, hi, Option.map_some']
      rw [applyLatest_unchanged _ _ (Or.inl (lookupLatestVersion_eq_none _ _ habsent))]

/-- Witness for claim C3: a concrete installed entry whose name does not
occur in the updates passes through unchanged. -/
theorem claim_C3_witness :
    (mergePackageListWithUpdate
      [{ name := "requests", version := "2.0" }]
      [{ name := "numpy", latest_version := some "9.1" }])[0]?
    = some { name := "requests", version := "2.0" } :=
  claim_C3.2.2 [{ name := "requests", version := "2.0" }]
    [{ name := "numpy", latest_version := some "9.1" }] 0
    { name := "requests", version := "2.0" } rfl (by decide)

/-- Claim C10: the merge returns a list of the same length, preserving
the names and installed versions position by position (only the
`latestVersion` field can change), and a record whose every matching
update entry carries an absent or empty `latest_version` is returned
unchanged. -/
theorem claim_C10 (packInfo : List PackageVersionInfo) (updateInfo : List OutdatedInfo) :
    (mergePackageListWithUpdate packInfo updateInfo).length = packInfo.length
    ∧ (∀ i : Nat, ((mergePackageListWithUpdate packInfo updateInfo)[i]?.map PackageVersionInfo.name)
        = (packInfo[i]?.map PackageVersionInfo.name))
    ∧ (∀ i : Nat, ((mergePackageListWithUpdate packInfo updateInfo)[i]?.map PackageVersionInfo.version)
        = (packInfo[i]?.map PackageVersionInfo.version))
    ∧ (∀ (i : Nat) (r : PackageVersionInfo), packInfo[i]? = some r →
        (∀ e ∈ updateInfo, e.name = r.name →
          e.latest_version = none ∨ e.latest_version = some "") →
        (mergePackageListWithUpdate packInfo updateInfo)[i]? = some r) := by
  rcases updateInfo with _ | ⟨e, u⟩
  · refine ⟨rfl, fun i => rfl, fun i => rfl, ?_⟩
    intro i r hi _
    simpa [mergePackageListWithUpdate] using hi
  · refine ⟨?_, ?_, ?_, ?_⟩
    · simp [mergePackageListWithUpdate]
    · intro i
      simp only [mergePackageListWithUpdate, List.length_cons, Nat.zero_lt_succ, if_pos,
        List.getElem?_map]
      rcases packInfo[i]? with _ | r
      · rfl
      · simp [applyLatest_name]
    · intro i
      simp only [mergePackageListWithUpdate, List.length_cons, Nat.zero_lt_succ, if_pos,
        List.getElem?_map]
      rcases packInfo[i]? with _ | r
      · rfl
      · simp [applyLatest_version]
    · intro i r hi hfalsy
      simp only [mergePackageListWithUpdate, List.length_cons, Nat.zero_lt_succ, if_pos,
        List.getElem?_map, hi, Option.map_some']
      rw [applyLatest_unchanged _ _ (lookupLatestVersion_falsy _ _ hfalsy)]

/-- Witness for claim C10: a concrete record whose update entry carries an
empty `latest_version` is returned unchanged. -/
theorem claim_C10_witness :
    (mergePackageListWithUpdate
      [{ name := "requests", version := "2.0" }]
      [{ name := "requests", latest_version := some "" }])[0]?
    = some { name := "requests", version := "2.0" } :=
  (claim_C10 [{ name := "requests", version := "2.0" }]
    [{ name := "requests", latest_version := some "" }]).2.2.2 0
    { name := "requests", version := "2.0" } rfl (by decide)

/-- Claim C4: for every valid package spec — a combined `name==version`
token, a plain `name` token, or a structured pair — parsing yields a
record whose canonical string form round-trips to the same record, and a
blank name in any of these forms yields the recognized invalid result
(`none`), not an exception. Validity of the token forms is expressed by
the hypotheses: the name is nonblank, the version is nonblank, and
neither embeds the `==` separator (stated as the corresponding `split`
equations). -/
theorem claim_C4 (n v : String) (hn : n ≠ "") (hv : v ≠ "")
    (hsplit2 : jsSplitEqEq (n ++ "==" ++ v) = [n, v])
    (hsplit1 : jsSplitEqEq n = [n])
    (hsplit0 : jsSplitEqEq ("==" ++ v) = ["", v]) :
    (createPackageInfo (.str (n ++ "==" ++ v)) = some ⟨n, some v, none⟩)
    ∧ (PackageInfo.canonical ⟨n, some v, none⟩ = n ++ "==" ++ v)
    ∧ (createPackageInfo (.str (PackageInfo.canonical ⟨n, some v, none⟩))
        = some ⟨n, some v, none⟩)
    ∧ (createPackageInfo (.str n) = some ⟨n, none, none⟩)
    ∧ (PackageInfo.canonical ⟨n, none, none⟩ = n)
    ∧ (createPackageInfo (.str (PackageInfo.canonical ⟨n, none, none⟩))
        = some ⟨n, none, none⟩)
    ∧ (createPackageInfo (.info ⟨n, some v, none⟩) = some ⟨n, some v, none⟩)
    ∧ (createPackageInfo (.info ⟨n, none, none⟩) = some ⟨n, none, none⟩)
    ∧ (createPackageInfo (.str "") = none)
    ∧ (createPackageInfo (.str ("==" ++ v)) = none)
    ∧ (∀ ver lat, createPackageInfo (.info ⟨"", ver, lat⟩) = none) := by
  have hcombined : createPackageInfo (.str (n ++ "==" ++ v)) = some ⟨n, some v, none⟩ := by
    simp [createPackageInfo, hsplit2, jsOrUndef, hv, hn]
  have hcanon2 : PackageInfo.canonical ⟨n, some v, none⟩ = n ++ "==" ++ v := by
    simp [PackageInfo.canonical, hv]
  have hplain : createPackageInfo (.str n) = some ⟨n, none, none⟩ := by
    simp [createPackageInfo, hsplit1, jsOrUndef, hn]
  refine ⟨hcombined, hcanon2, ?_, hplain, rfl, ?_, ?_, ?_, ?_, ?_, ?_⟩
  · rw [hcanon2]
    exact hcombined
  · exact hplain
  · simp [createPackageInfo, hn]
  · simp [createPackageInfo, hn]
  · rfl
  · simp [createPackageInfo, hsplit0]
  · intro ver lat
    simp [createPackageInfo]

/-- Witness for claim C4: the concrete spec `test==0.0.1` satisfies every
validity hypothesis and round-trips. -/
theorem claim_C4_witness :
    createPackageInfo (.str ("test" ++ "==" ++ "0.0.1")) = some ⟨"test", some "0.0.1", none⟩ :=
  (claim_C4 "test" "0.0.1" (by decide) (by decide) (by decide) (by decide) (by decide)).1

/-! Helper lemmas about the version comparator. -/

theorem cmpTailB_nonneg : ∀ bs : List Nat, 0 ≤ cmpTailB bs := by
  intro bs
  induction bs with
  | nil => exact le_refl 0
  | cons b bs ih =>
    simp only [cmpTailB]
    split_ifs with h
    · exact ih
    · omega

theorem cmpTailB_nonpos_all_zero : ∀ bs : List Nat, cmpTailB bs ≤ 0 → ∀ b ∈ bs, b = 0 := by
  intro bs
  induction bs with
  | nil => intro _ b hb; cases hb
  | cons x bs ih =>
    intro h b hb
    simp only [cmpTailB] at h
    by_cases hx : ((x : Int) - 0 = 0)
    · rw [if_pos hx] at h
      rcases List.mem_cons.mp hb with rfl | hb
      · omega
      · exact ih h b hb
    · rw [if_neg hx] at h
      omega

theorem cmpParts_nil_right : ∀ as : List Nat, cmpParts as [] = -cmpTailB as := by
  intro as
  induction as with
  | nil => rfl
  | cons a as ih =>
    simp only [cmpParts, cmpTailB]
    by_cases ha : ((a : Int) = 0)
    · have h1 : (0 : Int) - a = 0 := by omega
      have h2 : (a : Int) - 0 = 0 := by omega
      rw [if_pos h1, if_pos h2, ih]
    · have h1 : ¬ ((0 : Int) - a = 0) := by omega
      have h2 : ¬ ((a : Int) - 0 = 0) := by omega
      rw [if_neg h1, if_neg h2]
      omega

theorem cmpParts_antisymm : ∀ as bs : List Nat, cmpParts as bs = -cmpParts bs as := by
  intro as
  induction as with
  | nil =>
    intro bs
    rw [cmpParts_nil_right]
    simp [cmpParts]
  | cons a as ih =>
    intro bs
    rcases bs with _ | ⟨b, bs⟩
    · rw [cmpParts_nil_right]
      simp [cmpParts]
    · simp only [cmpParts]
      by_cases h : ((b : Int) - a = 0)
      · have h2 : ((a : Int) - b = 0) := by omega
        rw [if_pos h, if_pos h2]
        exact ih bs
      · have h2 : ¬ ((a : Int) - b = 0) := by omega
        rw [if_neg h, if_neg h2]
        omega

theorem cmpParts_zeros_left : ∀ as bs : List Nat, (∀ a ∈ as, a = 0) →
    cmpParts as bs = cmpTailB bs := by
  intro as
  induction as with
  | nil => intro bs _; rfl
  | cons a as ih =>
    intro bs hall
    have ha : a = 0 := hall a (List.mem_cons_self a as)
    have hrest : ∀ x ∈ as, x = 0 := fun x hx => hall x (List.mem_cons_of_mem a hx)
    subst ha
    rcases bs with _ | ⟨b, bs⟩
    · simp only [cmpParts]
      rw [if_pos (by omega : (0 : Int) - ((0 : Nat) : Int) = 0)]
      rw [ih [] hrest]
    · simp only [cmpParts, cmpTailB]
      by_cases hb : ((b : Int) = 0)
      · have h1 : ((b : Int) - ((0 : Nat) : Int) = 0) := by omega
        have h2 : ((b : Int) - 0 = 0) := by omega
        rw [if_pos h1, if_pos h2]
        exact ih bs hrest
      · have h1 : ¬ ((b : Int) - ((0 : Nat) : Int) = 0) := by omega
        have h2 : ¬ ((b : Int) - 0 = 0) := by omega
        rw [if_neg h1, if_neg h2]
        omega

theorem cmpParts_trans : ∀ as bs cs : List Nat,
    cmpParts as bs ≤ 0 → cmpParts bs cs ≤ 0 → cmpParts as cs ≤ 0 := by
  intro as
  induction as with
  | nil =>
    intro bs cs h1 h2
    have hz : ∀ b ∈ bs, b = 0 := cmpTailB_nonpos_all_zero bs h1
    rw [cmpParts_zeros_left bs cs hz] at h2
    exact h2
  | cons a as ih =>
    intro bs cs h1 h2
    rcases bs with _ | ⟨b, bs⟩
    · have hz : ∀ c ∈ cs, c = 0 := cmpTailB_nonpos_all_zero cs h2
      rw [cmpParts_antisymm, cmpParts_zeros_left cs (a :: as) hz]
      have := cmpTailB_nonneg (a :: as)
      omega
    · rcases cs with _ | ⟨c, cs⟩
      · rw [cmpParts_nil_right]
        have := cmpTailB_nonneg (a :: as)
        omega
      · simp only [cmpParts] at h1 h2 ⊢
        by_cases hba : ((b : Int) - a = 0)
        · rw [if_pos hba] at h1
          by_cases hcb : ((c : Int) - b = 0)
          · rw [if_pos hcb] at h2
            rw [if_pos (by omega : (c : Int) - a = 0)]
            exact ih bs cs h1 h2
          · rw [if_neg hcb] at h2
            rw [if_neg (by omega : ¬ ((c : Int) - a = 0))]
            omega
        · rw [if_neg hba] at h1
          by_cases hcb : ((c : Int) - b = 0)
          · rw [if_pos hcb] at h2
            rw [if_neg (by omega : ¬ ((c : Int) - a = 0))]
            omega
          · rw [if_neg hcb] at h2
            rw [if_neg (by omega : ¬ ((c : Int) - a = 0))]
            omega

instance : IsTotal String versionLE :=
  ⟨fun a b => by
    unfold versionLE compareVersionsJs
    have h := cmpParts_antisymm (jsVersionParts a) (jsVersionParts b)
    omega⟩

instance : IsTrans String versionLE :=
  ⟨fun _ _ _ h1 h2 => cmpParts_trans _ _ _ h1 h2⟩

/-- Claim C5 (amended): `getPackageVersionList` returns exactly the
releases having at least one distributable file, sorted descending under
the comparator of the code — which, per component, concatenates all
digit characters and reads them as one number (so `1a2` counts as 12),
rather than taking the leading integer run — with missing components
counted as 0; the documented example sorts as claimed, and a fetch or
parse failure returns the empty sequence. -/
theorem claim_C5 (releases : List (String × List Unit)) :
    getPackageVersionList none = []
    ∧ List.Sorted versionLE (getPackageVersionList (some releases))
    ∧ (getPackageVersionList (some releases)).Perm
        ((releases.filter (fun p => decide (0 < p.2.length))).map Prod.fst)
    ∧ getPackageVersionList
        (some [("1.2.0", [()]), ("1.10.0", [()]), ("1.9.0", [()])])
      = ["1.10.0", "1.9.0", "1.2.0"] :=
  ⟨rfl,
   List.sorted_insertionSort versionLE _,
   List.perm_insertionSort versionLE _,
   by decide⟩

/-- Counterexample to claim C5 as stated: the claimed rule extracts the
leading integer run of each component, but the code concatenates all
digits. On the component `1a2` the two rules give 1 and 12, so for the
releases `3.0` and `1a2.0` (each with one file) the code returns
`[1a2.0, 3.0]`, which violates the claimed descending order since the
leading-run comparator ranks `1a2.0` strictly below `3.0`. -/
theorem claim_C5_counterexample :
    getPackageVersionList (some [("3.0", [()]), ("1a2.0", [()])]) = ["1a2.0", "3.0"]
    ∧ ¬ List.Pairwise (fun a b => compareVersionsSpec a b ≤ 0) ["1a2.0", "3.0"]
    ∧ jsComponentKey "1a2" = 12 ∧ specComponentKey "1a2" = 1 := by
  refine ⟨by decide, ?_, by decide, by decide⟩
  intro h
  rw [List.pairwise_cons] at h
  have h2 := h.1 "3.0" (by simp)
  have h3 : compareVersionsSpec "1a2.0" "3.0" = 2 := by decide
  omega

theorem jsNumberOr1_pos (txt : Option String) : 1 ≤ jsNumberOr1 txt := by
  unfold jsNumberOr1
  cases h : jsNumberNat txt with
  | none => exact le_refl 1
  | some k => cases k with
    | zero => exact le_refl 1
    | succ k => exact Nat.succ_le_succ (Nat.zero_le k)

/-- Claim C8 (amended): `totalPages` is parsed from the second-to-last
pagination anchor whenever a pagination block with at least two anchors
is present, an absent, unparsable or zero anchor text defaulting to 1,
and is then clamped upward to at least the requested page; when the
pagination block is absent, the clamp never runs and `totalPages` is 1
regardless of the requested page. -/
theorem claim_C8 (page : Nat) (anchors : List (Option String)) (h2 : 2 ≤ anchors.length) :
    searchTotalPages page none = some 1
    ∧ searchTotalPages page (some anchors)
        = some (max (jsNumberOr1 (anchors.getD (anchors.length - 2) none)) page)
    ∧ (∀ t, searchTotalPages page (some anchors) = some t → page ≤ t ∧ 1 ≤ t)
    ∧ (∀ txt, jsNumberNat txt = none → jsNumberOr1 txt = 1) := by
  refine ⟨rfl, ?_, ?_, ?_⟩
  · simp only [searchTotalPages]
    rw [if_neg (by omega : ¬ anchors.length < 2)]
    congr 1
    split_ifs with h
    · exact (Nat.max_eq_right (le_of_lt h)).symm
    · exact (Nat.max_eq_left (by omega)).symm
  · intro t ht
    simp only [searchTotalPages] at ht
    rw [if_neg (by omega : ¬ anchors.length < 2)] at ht
    have hpos := jsNumberOr1_pos (anchors.getD (anchors.length - 2) none)
    split_ifs at ht with h
    · simp only [Option.some.injEq] at ht
      omega
    · simp only [Option.some.injEq] at ht
      omega
  · intro txt hnone
    simp [jsNumberOr1, hnone]

/-- Counterexample to claim C8 as stated: the clamp to the requested page
only executes when a pagination block was found. With no pagination
block and requested page 2, the code returns `totalPages = 1`, which is
strictly below the requested page. -/
theorem claim_C8_counterexample :
    searchTotalPages 2 none = some 1 ∧ ¬ (2 ≤ 1) :=
  ⟨rfl, by omega⟩

/-- Witness for claim C8: a concrete pagination block whose
second-to-last anchor reads 7. -/
theorem claim_C8_witness :
    searchTotalPages 3 (some [some "prev", some "1", some "7", some "next"])
      = some (max (jsNumberOr1 ([some "prev", some "1", some "7", some "next"].getD 2 none)) 3) :=
  (claim_C8 3 [some "prev", some "1", some "7", some "next"] (by decide)).2.1

/-- Claim C9: for every protected bootstrap name (`pip`, `setuptools`,
`wheel`), `removePackage` performs no uninstall invocation and completes
without error with an empty effect list (the catalog is untouched), and
the remove command handler reports the `did not remove` outcome
(`false`) to its caller without running any effect. -/
theorem claim_C9 (name : String) (h : name ∈ necessaryPackage) :
    removePackage (.str name) = Except.ok []
    ∧ removePackageCommand name = Except.ok (false, []) := by
  have h3 : name = "pip" ∨ name = "setuptools" ∨ name = "wheel" := by
    simpa [necessaryPackage] using h
  rcases h3 with rfl | rfl | rfl
  · exact ⟨rfl, rfl⟩
  · exact ⟨rfl, rfl⟩
  · exact ⟨rfl, rfl⟩

/-- Witness for claim C9: the protected name `pip`. -/
theorem claim_C9_witness :
    removePackage (.str "pip") = Except.ok []
    ∧ removePackageCommand "pip" = Except.ok (false, []) :=
  claim_C9 "pip" (by decide)

/-! Helper lemmas about the command executor. -/

theorem execStep_errMsg (s : ExecState) (e : ExecEvent) :
    (execStep s e).errMsg =
      match nonWarningStderr e with
      | some d => s.errMsg ++ d
      | none => s.errMsg := by
  obtain ⟨o, em, k, st⟩ := s
  cases e with
  | stdout d => rfl
  | stderr d =>
    simp only [execStep, nonWarningStderr]
    split_ifs <;> rfl
  | cancelRequested => rfl
  | close code => cases st <;> rfl
  | procError m => cases st <;> rfl

theorem execRun_errMsg_foldl (events : List ExecEvent) (s : ExecState) :
    (events.foldl execStep s).errMsg
      = s.errMsg ++ concatStrings (events.filterMap nonWarningStderr) := by
  induction events generalizing s with
  | nil => exact (String.append_empty s.errMsg).symm
  | cons e events ih =>
    rw [List.foldl_cons, ih (execStep s e)]
    have hstep := execStep_errMsg s e
    cases hne : nonWarningStderr e with
    | none =>
      rw [hne] at hstep
      rw [hstep, List.filterMap_cons, hne]
    | some d =>
      rw [hne] at hstep
      rw [hstep, List.filterMap_cons, hne]
      simp only [concatStrings]
      rw [String.append_assoc]

theorem execStep_killed_mono (s : ExecState) (e : ExecEvent) (h : s.killed = true) :
    (execStep s e).killed = true := by
  obtain ⟨o, em, k, st⟩ := s
  cases e with
  | stdout d => exact h
  | stderr d =>
    simp only [execStep]
    split_ifs <;> exact h
  | cancelRequested => rfl
  | close code => cases st <;> exact h
  | procError m => cases st <;> exact h

theorem execRun_killed_foldl (events : List ExecEvent) (s : ExecState)
    (h : s.killed = true ∨ ExecEvent.cancelRequested ∈ events) :
    (events.foldl execStep s).killed = true := by
  induction events generalizing s with
  | nil =>
    rcases h with h | h
    · exact h
    · cases h
  | cons e events ih =>
    rw [List.foldl_cons]
    rcases h with h | h
    · exact ih (execStep s e) (Or.inl (execStep_killed_mono s e h))
    · rcases List.mem_cons.mp h with rfl | h
      · exact ih _ (Or.inl rfl)
      · exact ih (execStep s e) (Or.inr h)

theorem execStep_fields_congr (s1 s2 : ExecState) (e : ExecEvent)
    (ho : s1.out = s2.out) (he : s1.errMsg = s2.errMsg) (hs : s1.settled = s2.settled) :
    (execStep s1 e).out = (execStep s2 e).out
    ∧ (execStep s1 e).errMsg = (execStep s2 e).errMsg
    ∧ (execStep s1 e).settled = (execStep s2 e).settled := by
  obtain ⟨o1, m1, k1, st1⟩ := s1
  obtain ⟨o2, m2, k2, st2⟩ := s2
  obtain rfl : o1 = o2 := ho
  obtain rfl : m1 = m2 := he
  obtain rfl : st1 = st2 := hs
  cases e with
  | stdout d => exact ⟨rfl, rfl, rfl⟩
  | stderr d =>
    simp only [execStep]
    split_ifs <;> exact ⟨rfl, rfl, rfl⟩
  | cancelRequested => exact ⟨rfl, rfl, rfl⟩
  | close code => cases st1 <;> exact ⟨rfl, rfl, rfl⟩
  | procError m => cases st1 <;> exact ⟨rfl, rfl, rfl⟩

theorem execRun_erase_cancel_foldl (events : List ExecEvent) (s1 s2 : ExecState)
    (ho : s1.out = s2.out) (he : s1.errMsg = s2.errMsg) (hs : s1.settled = s2.settled) :
    ((events.filter (fun e => !isCancelEvent e)).foldl execStep s1).out
      = (events.foldl execStep s2).out
    ∧ ((events.filter (fun e => !isCancelEvent e)).foldl execStep s1).errMsg
      = (events.foldl execStep s2).errMsg
    ∧ ((events.filter (fun e => !isCancelEvent e)).foldl execStep s1).settled
      = (events.foldl execStep s2).settled := by
  induction events generalizing s1 s2 with
  | nil => exact ⟨ho, he, hs⟩
  | cons e events ih =>
    cases e with
    | cancelRequested =>
      simp only [List.filter_cons, isCancelEvent, Bool.not_true, List.foldl_cons]
      exact ih s1 { s2 with killed := true } ho he hs
    | stdout d =>
      simp only [List.filter_cons, isCancelEvent, Bool.not_false, List.foldl_cons]
      have h := execStep_fields_congr s1 s2 (ExecEvent.stdout d) ho he hs
      exact ih _ _ h.1 h.2.1 h.2.2
    | stderr d =>
      simp only [List.filter_cons, isCancelEvent, Bool.not_false, List.foldl_cons]
      have h := execStep_fields_congr s1 s2 (ExecEvent.stderr d) ho he hs
      exact ih _ _ h.1 h.2.1 h.2.2
    | close code =>
      simp only [List.filter_cons, isCancelEvent, Bool.not_false, List.foldl_cons]
      have h := execStep_fields_congr s1 s2 (ExecEvent.close code) ho he hs
      exact ih _ _ h.1 h.2.1 h.2.2
    | procError m =>
      simp only [List.filter_cons, isCancelEvent, Bool.not_false, List.foldl_cons]
      have h := execStep_fields_congr s1 s2 (ExecEvent.procError m) ho he hs
      exact ih _ _ h.1 h.2.1 h.2.2

/-- Claim C7 (amended): a stderr chunk beginning with the `WARNING`
marker is suppressed from the accumulated error message AND from the
diagnostic output channel — the mirroring `appendLine` sits inside the
same guard, so such a chunk is dropped entirely; every other stderr
chunk is both accumulated and surfaced, and the accumulated error
message of any run is exactly the concatenation of its non-`WARNING`
stderr chunks. -/
theorem claim_C7 (s : ExecState) (d : String) (events : List ExecEvent) :
    (startsWithWarning d = true →
      execStep s (ExecEvent.stderr d) = s ∧ execDiagLines (ExecEvent.stderr d) = [])
    ∧ (startsWithWarning d = false →
      execStep s (ExecEvent.stderr d) = { s with errMsg := s.errMsg ++ d }
        ∧ execDiagLines (ExecEvent.stderr d) = [d])
    ∧ (execRun events).errMsg = concatStrings (events.filterMap nonWarningStderr) := by
  refine ⟨?_, ?_, ?_⟩
  · intro h
    exact ⟨by simp [execStep, h], by simp [execDiagLines, h]⟩
  · intro h
    exact ⟨by simp [execStep, h], by simp [execDiagLines, h]⟩
  · have h := execRun_errMsg_foldl events {}
    rw [execRun, h]
    exact String.empty_append _

/-- Counterexample to claim C7 as stated: a stderr chunk beginning with
`WARNING` is suppressed from the error accumulation but is NOT surfaced
on the diagnostic channel — it produces no diagnostic line at all. -/
theorem claim_C7_counterexample :
    execDiag [ExecEvent.stderr "WARNING: Retrying"] = []
    ∧ (execRun [ExecEvent.stderr "WARNING: Retrying"]).errMsg = "" :=
  ⟨rfl, rfl⟩

/-- Witness for claim C7: a non-warning chunk is both accumulated and
surfaced. -/
theorem claim_C7_witness :
    execStep {} (ExecEvent.stderr "boom") = { errMsg := "boom" }
    ∧ execDiagLines (ExecEvent.stderr "boom") = ["boom"] :=
  (claim_C7 {} "boom" []).2.1 (by decide)

/-- Claim C6 (amended): when the cancellation token fires during a run,
`p.kill()` is invoked; cancellation is not surfaced as a distinct error
kind — the cancellation callback never settles the promise, and the
accumulated outputs and settled outcome of a run are identical to those
of the same run with every cancellation event removed. The claim that
the pending operation never resolves successfully does not hold: the
close handler treats a null exit code — which a process terminated by
`kill` reports — as success and resolves with the accumulated output. -/
theorem claim_C6 (events : List ExecEvent) (s : ExecState)
    (hc : ExecEvent.cancelRequested ∈ events) :
    (execRun events).killed = true
    ∧ execStep s ExecEvent.cancelRequested = { s with killed := true }
    ∧ ((execRun (events.filter (fun e => !isCancelEvent e))).out = (execRun events).out
       ∧ (execRun (events.filter (fun e => !isCancelEvent e))).errMsg = (execRun events).errMsg
       ∧ (execRun (events.filter (fun e => !isCancelEvent e))).settled = (execRun events).settled)
    ∧ (s.settled = none →
        (execStep s (ExecEvent.close none)).settled = some (ExecOutcome.resolved s.out)) := by
  refine ⟨?_, rfl, ?_, ?_⟩
  · exact execRun_killed_foldl events {} (Or.inr hc)
  · exact execRun_erase_cancel_foldl events {} {} rfl rfl rfl
  · intro hnone
    obtain ⟨o, em, k, st⟩ := s
    obtain rfl : st = none := hnone
    rfl

/-- Counterexample to claim C6 as stated: the token fires while the
process runs (kill is invoked), the killed process closes with the null
exit code Node reports for signal-terminated processes, and the `!code`
test of the close handler treats that as success — `execute` resolves
successfully with the partial output instead of never resolving. -/
theorem claim_C6_counterexample :
    (execRun [ExecEvent.stdout "partial", ExecEvent.cancelRequested,
        ExecEvent.close none]).killed = true
    ∧ (execRun [ExecEvent.stdout "partial", ExecEvent.cancelRequested,
        ExecEvent.close none]).settled = some (ExecOutcome.resolved "partial") :=
  ⟨rfl, by decide⟩

/-- Witness for claim C6: a run containing a cancellation event ends with
the process killed. -/
theorem claim_C6_witness :
    (execRun [ExecEvent.cancelRequested, ExecEvent.close none]).killed = true :=
  (claim_C6 [ExecEvent.cancelRequested, ExecEvent.close none] {} (by decide)).1

/-! Helper lemmas about the batched enrichment. -/

theorem enrichRoundsAux_msgs_length (net : String → Option PyPiInfo) (hasReq : Bool) :
    ∀ (fuel : Nat) (done todo : List PackageVersionInfo), todo.length ≤ fuel →
      (enrichRoundsAux net hasReq fuel done todo).2.length = (todo.length + 4) / 5 := by
  intro fuel
  induction fuel with
  | zero =>
    intro done todo h
    have : todo = [] := List.length_eq_zero.mp (Nat.le_zero.mp h)
    subst this
    rfl
  | succ fuel ih =>
    intro done todo h
    cases todo with
    | nil => rfl
    | cons t ts =>
      simp only [enrichRoundsAux, List.length_cons]
      have hdrop : ((t :: ts).drop 5).length = ts.length + 1 - 5 := by
        rw [List.length_drop]
        simp only [List.length_cons]
      have hlen : ((t :: ts).drop 5).length ≤ fuel := by
        rw [hdrop]
        simp only [List.length_cons] at h
        omega
      rw [ih _ _ hlen, hdrop]
      omega

theorem enrichRoundsAux_msgs_shape (net : String → Option PyPiInfo) (hasReq : Bool) :
    ∀ (fuel : Nat) (done todo : List PackageVersionInfo),
      ∀ m ∈ (enrichRoundsAux net hasReq fuel done todo).2,
        ∃ data, m = ViewMessage.packages data hasReq := by
  intro fuel
  induction fuel with
  | zero =>
    intro done todo m hm
    exact absurd hm (List.not_mem_nil m)
  | succ fuel ih =>
    intro done todo m hm
    cases todo with
    | nil => exact absurd hm (List.not_mem_nil m)
    | cons t ts =>
      simp only [enrichRoundsAux] at hm
      rcases List.mem_cons.mp hm with rfl | hm
      · exact ⟨_, rfl⟩
      · exact ih _ _ m hm

/-- Claim C1: during the enrichment phase the installed list is processed
in fixed batches of 5 — for a list of n packages exactly ceil(n/5)
settlement rounds occur, each publishing one incremental `packages`
snapshot (so 3 rounds with boundaries 5,5,2 for n = 12, demonstrated on
a concrete instance); within a batch each member is looked up
independently, so changing (or failing) one member's lookup cannot
change a batch-mate's record, and a failed lookup leaves its own record
unchanged rather than failing the round. -/
theorem claim_C1 :
    (∀ (net : String → Option PyPiInfo) (hasReq : Bool) (pkgs : List PackageVersionInfo),
        (enrichMsgs net hasReq pkgs).length = (pkgs.length + 4) / 5)
    ∧ (∀ (net : String → Option PyPiInfo) (hasReq : Bool) (pkgs : List PackageVersionInfo),
        ∀ m ∈ enrichMsgs net hasReq pkgs, ∃ data, m = ViewMessage.packages data hasReq)
    ∧ (∀ (net net2 : String → Option PyPiInfo) (batch : List PackageVersionInfo)
        (j : Nat) (q : PackageVersionInfo), batch[j]? = some q →
        net q.name = net2 q.name →
        (enrichBatch net batch)[j]? = (enrichBatch net2 batch)[j]?)
    ∧ (∀ (net : String → Option PyPiInfo) (pkg : PackageVersionInfo),
        checkPackageLatestVersion net pkg.name none = none → enrichPkg net pkg = pkg)
    ∧ enrichMsgs netTwo false
        [pkgN "p01", pkgN "p02", pkgN "p03", pkgN "p04", pkgN "p05", pkgN "p06",
         pkgN "p07", pkgN "p08", pkgN "p09", pkgN "p10", pkgN "p11", pkgN "p12"]
      = [ViewMessage.packages
          [pkgNv "p01", pkgNv "p02", pkgNv "p03", pkgNv "p04", pkgNv "p05", pkgN "p06",
           pkgN "p07", pkgN "p08", pkgN "p09", pkgN "p10", pkgN "p11", pkgN "p12"] false,
         ViewMessage.packages
          [pkgNv "p01", pkgNv "p02", pkgNv "p03", pkgNv "p04", pkgNv "p05", pkgNv "p06",
           pkgNv "p07", pkgNv "p08", pkgNv "p09", pkgNv "p10", pkgN "p11", pkgN "p12"] false,
         ViewMessage.packages
          [pkgNv "p01", pkgNv "p02", pkgNv "p03", pkgNv "p04", pkgNv "p05", pkgNv "p06",
           pkgNv "p07", pkgNv "p08", pkgNv "p09", pkgNv "p10", pkgNv "p11", pkgNv "p12"] false] := by
  refine ⟨?_, ?_, ?_, ?_, by decide⟩
  · intro net hasReq pkgs
    exact enrichRoundsAux_msgs_length net hasReq pkgs.length [] pkgs (le_refl _)
  · intro net hasReq pkgs m hm
    exact enrichRoundsAux_msgs_shape net hasReq pkgs.length [] pkgs m hm
  · intro net net2 batch j q hq hsame
    simp only [enrichBatch, List.getElem?_map, hq, Option.map_some']
    have : enrichPkg net q = enrichPkg net2 q := by
      unfold enrichPkg checkPackageLatestVersion
      rw [hsame]
    rw [this]
  · intro net pkg h
    unfold enrichPkg
    rw [h]

/-- Witness for claim C1: in the two-element batch `p01, p02`, failing
the lookup of `p02` does not change the enriched record of `p01`. -/
theorem claim_C1_witness :
    (enrichBatch netTwo [pkgN "p01", pkgN "p02"])[0]?
      = (enrichBatch netTwoFail [pkgN "p01", pkgN "p02"])[0]? :=
  claim_C1.2.2.1 netTwo netTwoFail [pkgN "p01", pkgN "p02"] 0 (pkgN "p01") rfl (by decide)

/-- Claim C2 (amended): a refresh request issued at any provider state
does not supersede or cancel the in-flight work: `refresh()` simply
starts a new `_loadPackages` cycle. The handler appends one new cycle,
leaves every existing cycle (its id and all of its pending messages)
untouched, emits nothing itself, and an older cycle that still has a
pending message emits that message when next scheduled — even right
after a new refresh arrived. No registry cancellation token exists in
this path: the enrichment lookups are issued without one. -/
theorem claim_C2 (net : String → Option PyPiInfo)
    (listing : Except String (List PackageVersionInfo)) (wsHasReq : Bool) (s : WebviewState) :
    (refreshHandler net listing wsHasReq s).tasks.length = s.tasks.length + 1
    ∧ (∀ i : Nat, i < s.tasks.length →
        (refreshHandler net listing wsHasReq s).tasks[i]? = s.tasks[i]?)
    ∧ (refreshHandler net listing wsHasReq s).log = s.log
    ∧ (∀ (i : Nat) (t : RefreshTask) (m : ViewMessage) (rest : List ViewMessage),
        s.tasks[i]? = some t → t.pending = m :: rest →
        (stepTask i (refreshHandler net listing wsHasReq s)).log = s.log ++ [(t.id, m)]) := by
  refine ⟨by simp [refreshHandler], ?_, rfl, ?_⟩
  · intro i hi
    simp only [refreshHandler]
    rw [List.getElem?_append, if_pos hi]
  · intro i t m rest ht hp
    have hi : i < s.tasks.length := (List.getElem?_eq_some.mp ht).1
    have h2 : (refreshHandler net listing wsHasReq s).tasks[i]? = some t := by
      simp only [refreshHandler]
      rw [List.getElem?_append, if_pos hi]
      exact ht
    simp only [stepTask, h2, hp]
    rfl

/-- Counterexample to claim C2 as stated: start a refresh over a single
installed package, let its cycle run four steps (to just after
`checkingUpdates(true)`, i.e. mid-enrichment), then issue a second
refresh. The code cancels nothing: both cycles are now in flight
(count 2, refuting "at most one logical refresh in flight"), and the
first cycle, when next scheduled, still publishes its enrichment
`packages` snapshot for its own cycle (refuting "a superseded refresh
emits no further packages messages"). -/
theorem claim_C2_counterexample :
    activeRefreshCount
        (refreshHandler netTwo (Except.ok [pkgN "a"]) false
          (stepTasks [0, 0, 0, 0]
            (refreshHandler netTwo (Except.ok [pkgN "a"]) false {}))) = 2
    ∧ (stepTask 0
        (refreshHandler netTwo (Except.ok [pkgN "a"]) false
          (stepTasks [0, 0, 0, 0]
            (refreshHandler netTwo (Except.ok [pkgN "a"]) false {})))).log.getLast?
      = some (0, ViewMessage.packages [pkgNv "a"] false) :=
  ⟨by decide, by decide⟩

/-- Witness for claim C2: a concrete one-task state whose pending message
is still emitted by the old cycle after a new refresh arrives. -/
theorem claim_C2_witness :
    (stepTask 0 (refreshHandler netTwo (Except.ok []) false
        { tasks := [{ id := 0, pending := [ViewMessage.loading true] }],
          nextId := 1, log := [] })).log
      = [] ++ [(0, ViewMessage.loading true)] :=
  (claim_C2 netTwo (Except.ok []) false
      { tasks := [{ id := 0, pending := [ViewMessage.loading true] }],
        nextId := 1, log := [] }).2.2.2 0
    { id := 0, pending := [ViewMessage.loading true] } (ViewMessage.loading true) [] rfl rfl
